import Mathlib

/-!
# Verification of the `nearby-places` fetch pipeline

Shallow embedding of `src/fetch-places.ts` (the recursive-quadrant variant,
which is the one the specification adopts as primary).  Coordinates are
modelled as rationals; the transcendental parts of the source
(`Math.cos` inside the quadrant-offset computation, and the haversine
distance) are abstracted as function parameters, since the claims under
study are about the combinatorial structure around them.  External HTTP
calls are modelled as explicit inputs: the places provider becomes a
function `Location → ℚ → List PlaceBasic`, and the detail fetch becomes an
`Except` value (a transport-level rejection of `fetch` is the `.error`
case, an HTTP response — ok or not — is the `.ok` case).
-/

namespace NearbyPlaces

/-- `interface Location { lat: number; lng: number }` (degrees). -/
structure Location where
  lat : ℚ
  lng : ℚ
deriving DecidableEq, Repr

/-- `interface PlaceBasic` from `fetch-places.ts`. -/
structure PlaceBasic where
  place_id : String
  name : String
  types : List String
  location : Location
deriving DecidableEq, Repr

/-- Helper for `dedupFirst`: drop the elements already seen, keep the
first occurrence of each of the rest. -/
def dedupFirstAux (seen : List String) : List String → List String
  | [] => []
  | x :: xs =>
    if x ∈ seen then dedupFirstAux seen xs
    else x :: dedupFirstAux (x :: seen) xs

/-- `[...new Set([...xs, ...ys])]`: JS `Set` iteration order keeps the first
occurrence of each element, so the spread of a `Set` built from a list is the
list with later duplicates removed. -/
def dedupFirst (l : List String) : List String := dedupFirstAux [] l

/-- One step of the `for (const place of allPlaces)` dedup loop (Step 3 of
`main`): a JS `Map` keeps insertion order, updates an existing key in place,
and appends a new key at the end.  On collision only `types` is reassigned
(`existing.types = [...new Set([...existing.types, ...place.types])]`). -/
def insertPlace (m : List PlaceBasic) (place : PlaceBasic) : List PlaceBasic :=
  if m.any (fun q => q.place_id = place.place_id) then
    m.map (fun q =>
      if q.place_id = place.place_id then
        { q with types := dedupFirst (q.types ++ place.types) }
      else q)
  else
    m ++ [place]

/-- Step 3 of `main`: deduplicate `allPlaces` by `place_id`, merging `types`
on collision.  The resulting list is the `Map`'s value sequence in insertion
order. -/
def uniquePlaces (allPlaces : List PlaceBasic) : List PlaceBasic :=
  allPlaces.foldl insertPlace []

/-- Step 4 of `main`: retain a deduplicated place iff its recomputed
distance from the origin is within the requested radius and its id is not
excluded.  `dist` abstracts `haversineDistance` (an integer number of
meters, `Math.round` applied in the source). -/
def filteredPlaces (dist : Location → Location → ℤ) (origin : Location)
    (radiusMeters : ℤ) (excludeList : List String)
    (places : List PlaceBasic) : List PlaceBasic :=
  places.filter (fun place =>
    let distance := dist origin place.location
    let isWithinRadius : Bool := decide (distance ≤ radiusMeters)
    let isNotExcluded : Bool := !(decide (place.place_id ∈ excludeList))
    isWithinRadius && isNotExcluded)

/-- The four quadrant centers computed in `searchNearbyRecursive`:
offsets of `newRadius` meters along the NW/NE/SW/SE diagonals, converted to
degrees by the flat-Earth factors of §4.1.  `cosd` abstracts
`(x : degrees) ↦ Math.cos(x * Math.PI / 180)`. -/
def quadrantCenters (cosd : ℚ → ℚ) (center : Location) (newRadius : ℚ) :
    List Location :=
  let offsetLat := newRadius / 111320
  let offsetLng := newRadius / (111320 * cosd center.lat)
  [ ⟨center.lat + offsetLat, center.lng - offsetLng⟩,   -- NW
    ⟨center.lat + offsetLat, center.lng + offsetLng⟩,   -- NE
    ⟨center.lat - offsetLat, center.lng - offsetLng⟩,   -- SW
    ⟨center.lat - offsetLat, center.lng + offsetLng⟩ ]  -- SE

/-- `searchNearbyRecursive` from `fetch-places.ts`, with the provider call
`searchNearby` abstracted as `provider` and the recursion depth bounded by
explicit `fuel` (the source recurses without a syntactic bound; fuel
exhaustion yields `none`, and the termination claim is that enough fuel
always exists).  The second component of the result counts the number of
area-search calls issued.  Returning `(results, 1)` models the two
early-return branches (`results.length < 20 || radius <= minRadius`);
otherwise the four quadrants are searched in order at `radius / 2` and their
results concatenated. -/
def searchNearbyRecursive (provider : Location → ℚ → List PlaceBasic)
    (cosd : ℚ → ℚ) (minRadius : ℚ) :
    ℕ → Location → ℚ → Option (List PlaceBasic × ℕ)
  | 0, _, _ => none
  | fuel + 1, center, radius =>
    let results := provider center radius
    if results.length < 20 ∨ radius ≤ minRadius then
      some (results, 1)
    else
      let newRadius := radius / 2
      (quadrantCenters cosd center newRadius).foldl
        (fun acc quad => do
          let (accList, accCalls) ← acc
          let (quadResults, quadCalls) ←
            searchNearbyRecursive provider cosd minRadius fuel quad newRadius
          pure (accList ++ quadResults, accCalls + quadCalls))
        (some ([], 1))

/-- Exact solution of the call-count recurrence `B (f+1) = 1 + 4 * B f`:
an upper bound for the number of provider calls a `searchNearbyRecursive`
run with the given fuel can issue. -/
def callBound : ℕ → ℕ
  | 0 => 0
  | fuel + 1 => 1 + 4 * callBound fuel

/-! ## Detail fetch (`getPlaceDetails`) -/

/-- The relevant shape of an HTTP response to the place-details request:
`ok`/`status` from the `Response` object, the remaining fields the parsed
JSON body (each optional, as the source accesses them duck-typed).
`currentOpeningHours` stands for `currentOpeningHours.weekdayDescriptions`
when the `currentOpeningHours` object is present. -/
structure DetailResponse where
  ok : Bool
  status : ℕ
  rating : Option ℚ
  userRatingCount : Option ℕ
  priceLevel : Option String
  currentOpeningHours : Option (List String)
  formattedAddress : Option String
  googleMapsUri : Option String
deriving DecidableEq, Repr

/-- The record `getPlaceDetails` resolves with (all fields optional;
`opening_hours` stands for the `weekday_text` line list). -/
structure DetailRecord where
  rating : Option ℚ
  user_ratings_total : Option ℕ
  price_level : Option ℕ
  opening_hours : Option (List String)
  formatted_address : Option String
  url : Option String
deriving DecidableEq, Repr

/-- The empty object `{}` returned on a non-ok HTTP response. -/
def emptyDetails : DetailRecord :=
  { rating := none, user_ratings_total := none, price_level := none,
    opening_hours := none, formatted_address := none, url := none }

/-- The `priceLevelMap` lookup of `getPlaceDetails` (the guard
`data.priceLevel && data.priceLevel in priceLevelMap` is the same as this
partial lookup: the falsy string `""` is not a key of the map). -/
def priceLevelMap (s : String) : Option ℕ :=
  if s = "PRICE_LEVEL_FREE" then some 0
  else if s = "PRICE_LEVEL_INEXPENSIVE" then some 1
  else if s = "PRICE_LEVEL_MODERATE" then some 2
  else if s = "PRICE_LEVEL_EXPENSIVE" then some 3
  else if s = "PRICE_LEVEL_VERY_EXPENSIVE" then some 4
  else none

/-- `getPlaceDetails` from `fetch-places.ts`.  The outcome of
`await fetch(...)` is the argument: `.error` models a transport-level
rejection of the promise (which the source does not catch — the `await`
re-raises it), `.ok` models a delivered HTTP response.  A delivered
response with `ok = false` yields the empty record `{}`. -/
def getPlaceDetails (fetched : Except String DetailResponse) :
    Except String DetailRecord :=
  match fetched with
  | .error e => .error e
  | .ok response =>
    if !response.ok then .ok emptyDetails
    else .ok {
      rating := response.rating
      user_ratings_total := response.userRatingCount
      price_level := response.priceLevel.bind priceLevelMap
      opening_hours := response.currentOpeningHours
      formatted_address := response.formattedAddress
      url := response.googleMapsUri }

/-! ## Opening-hours parsing (`parseOpeningHours`)

The regex `/^(\w+):\s*(.+)$/` is modelled character-exactly for the
character classes the inputs use: `\w` is `[A-Za-z0-9_]`, `\s` is modelled
by the usual ASCII whitespace plus NBSP, BOM and the line/paragraph
separators, and `.` matches anything but a line terminator.  `\w+` is
greedy and `:` is not a word character, so the word group is exactly the
maximal word-character run at the start; `\s*` then yields back characters
only when `(.+)$` would otherwise fail, i.e. when everything after the
colon is whitespace, in which case `(.+)` matches exactly the final
character. -/

/-- JS `\w`. -/
def isWordChar (ch : Char) : Bool := ch.isAlphanum || ch = '_'

/-- JS line terminators (not matched by `.`). -/
def isLineTerm (ch : Char) : Bool :=
  ch = '\n' || ch = '\r' || ch = ' ' || ch = ' '

/-- JS `\s` (restricted to the whitespace characters that occur in
practice: ASCII whitespace, NBSP, BOM, line/paragraph separators). -/
def isSpaceChar (ch : Char) : Bool :=
  ch = ' ' || ch = '\t' || ch = '\n' || ch = '\r' || ch = '\x0b' ||
  ch = '\x0c' || ch = ' ' || ch = '﻿' || ch = ' ' || ch = ' '

/-- Match `\s*(.+)$` against the text after the colon: drop leading
whitespace greedily; if nothing remains, backtrack so that `(.+)` takes the
final (whitespace) character; `(.+)` fails if it would have to cross a line
terminator. -/
def matchRest (rs : List Char) : Option (List Char) :=
  let t := rs.dropWhile isSpaceChar
  if t.isEmpty then
    match rs.getLast? with
    | some ch => if isLineTerm ch then none else some [ch]
    | none => none
  else if t.any isLineTerm then none else some t

/-- `line.match(/^(\w+):\s*(.+)$/)`, returning the two capture groups. -/
def matchLine (line : String) : Option (String × String) :=
  let cs := line.toList
  let w := cs.takeWhile isWordChar
  match cs.dropWhile isWordChar with
  | [] => none
  | c :: rs =>
    if w.isEmpty then none
    else if c = ':' then
      (matchRest rs).map (fun t => (String.mk w, String.mk t))
    else none

/-- The `days` array of `parseOpeningHours`. -/
def days : List String :=
  ["monday", "tuesday", "wednesday", "thursday", "friday", "saturday", "sunday"]

/-- `word.toLowerCase()` for the ASCII inputs at hand: per-character
lower-casing (stated over the character list so that it is structurally
computable). -/
def lowerString (s : String) : String := String.mk (s.toList.map Char.toLower)

/-- JS object assignment `hours[day] = text`: overwrite in place if the key
exists (keeping key order), append otherwise. -/
def upsert (m : List (String × String)) (k v : String) :
    List (String × String) :=
  if m.any (fun e => e.1 = k) then
    m.map (fun e => if e.1 = k then (k, v) else e)
  else m ++ [(k, v)]

/-- The body of the `for (const line of weekdayText)` loop of
`parseOpeningHours`. -/
def hoursStep (m : List (String × String)) (line : String) :
    List (String × String) :=
  match matchLine line with
  | some (w, rest) =>
    let day := lowerString w
    if day ∈ days then upsert m day rest else m
  | none => m

/-- `parseOpeningHours` from `fetch-places.ts`: `!weekdayText?.length`
(absent or empty input) gives `null`; otherwise the matched weekday lines
are collected into an object, and an object with no keys gives `null`. -/
def parseOpeningHours (weekdayText : Option (List String)) :
    Option (List (String × String)) :=
  match weekdayText with
  | none => none
  | some lines =>
    if lines.isEmpty then none
    else
      let hours := lines.foldl hoursStep []
      if hours.isEmpty then none else some hours

/-! ## Enrichment, sorting and the output pipeline -/

/-- The whitelist used to build the output `types` field. -/
def foodTypes : List String :=
  ["restaurant", "bar", "cafe", "bakery", "meal_takeaway", "meal_delivery",
   "night_club"]

/-- `place.types.filter((t) => [...].includes(t))` from Step 5 of `main`. -/
def relevantTypes (types : List String) : List String :=
  types.filter (fun t => decide (t ∈ foodTypes))

/-- `interface PlaceDetailed` from `fetch-places.ts` (with
`opening_hours` already parsed into key/value pairs). -/
structure PlaceDetailed where
  place_id : String
  name : String
  types : List String
  distance_meters : ℤ
  location : Location
  rating : Option ℚ
  review_count : ℕ
  price_level : Option ℕ
  opening_hours : Option (List (String × String))
  address : String
  google_maps_url : String
deriving DecidableEq, Repr

/-- The detail-enrichment loop (Step 5 of `main`), with the per-place
detail fetch abstracted as `details : String → DetailRecord` (the record
each `getPlaceDetails` call resolved with) and `haversineDistance`
abstracted as `dist`.  Field defaults follow the source:
`rating ?? null`, `user_ratings_total ?? 0`, `price_level ?? null`,
`formatted_address ?? ""`, `url ?? ""`, and
`types: relevantTypes.length ? relevantTypes : place.types.slice(0, 3)`. -/
def buildDetailed (dist : Location → Location → ℤ) (origin : Location)
    (details : String → DetailRecord) (places : List PlaceBasic) :
    List PlaceDetailed :=
  places.map (fun place =>
    let d := details place.place_id
    let distance := dist origin place.location
    let relevant := relevantTypes place.types
    { place_id := place.place_id
      name := place.name
      types := if relevant.isEmpty then place.types.take 3 else relevant
      distance_meters := distance
      location := place.location
      rating := d.rating
      review_count := d.user_ratings_total.getD 0
      price_level := d.price_level
      opening_hours := parseOpeningHours d.opening_hours
      address := d.formatted_address.getD ""
      google_maps_url := d.url.getD "" })

/-- `detailedPlaces.sort((a, b) => a.distance_meters - b.distance_meters)`:
`Array.prototype.sort` is required by the ECMAScript standard to be stable,
and with this comparator it orders by `distance_meters` ascending, so it is
modelled by the stable `List.mergeSort` with the corresponding `≤` test. -/
def sortPlaces (places : List PlaceDetailed) : List PlaceDetailed :=
  places.mergeSort (fun a b => decide (a.distance_meters ≤ b.distance_meters))

/-- Steps 3–6 of `main` composed: dedup, distance/exclusion filter,
enrichment, sort. -/
def placesPipeline (dist : Location → Location → ℤ) (origin : Location)
    (radiusMeters : ℤ) (excludeList : List String)
    (details : String → DetailRecord) (allPlaces : List PlaceBasic) :
    List PlaceDetailed :=
  sortPlaces (buildDetailed dist origin details
    (filteredPlaces dist origin radiusMeters excludeList
      (uniquePlaces allPlaces)))

/-! ## Flat-Earth planar geometry of §4.1 -/

/-- Squared planar distance, in square meters, between two locations in
the flat-Earth model of §4.1: one degree of latitude is 111320 m and one
degree of longitude is `111320 * cosLat` m, where `cosLat` is the cosine
of the reference latitude. -/
def planarDistSq (cosLat : ℚ) (a b : Location) : ℚ :=
  ((b.lng - a.lng) * (111320 * cosLat)) ^ 2 + ((b.lat - a.lat) * 111320) ^ 2

/-! ## Helper lemmas -/

theorem mem_dedupFirstAux (a : String) :
    ∀ (l seen : List String),
      a ∈ dedupFirstAux seen l ↔ a ∈ l ∧ a ∉ seen := by
  intro l
  induction l with
  | nil => simp [dedupFirstAux]
  | cons x xs ih =>
    intro seen
    by_cases hx : x ∈ seen
    · rw [dedupFirstAux, if_pos hx, ih]
      by_cases hax : a = x <;> simp [hax, hx]
    · rw [dedupFirstAux, if_neg hx]
      by_cases hax : a = x <;> simp [hax, hx, ih, List.mem_cons]

theorem mem_dedupFirst (a : String) (l : List String) :
    a ∈ dedupFirst l ↔ a ∈ l := by
  simp [dedupFirst, mem_dedupFirstAux]

theorem mem_insertPlace (m : List PlaceBasic) (x p : PlaceBasic)
    (hp : p ∈ insertPlace m x) :
    (∃ q ∈ m, p.place_id = q.place_id ∧ p.name = q.name ∧
      p.location = q.location) ∨
    (p = x ∧ ∀ q ∈ m, q.place_id ≠ x.place_id) := by
  unfold insertPlace at hp
  by_cases hc : ∃ q ∈ m, q.place_id = x.place_id
  · left
    rw [if_pos (by simpa [List.any_eq_true] using hc)] at hp
    obtain ⟨q, hq, hfq⟩ := List.mem_map.mp hp
    refine ⟨q, hq, ?_⟩
    subst hfq
    by_cases h : q.place_id = x.place_id <;> simp [h]
  · rw [if_neg (by simpa [List.any_eq_true] using hc)] at hp
    rcases List.mem_append.mp hp with h | h
    · left
      exact ⟨p, h, rfl, rfl, rfl⟩
    · right
      refine ⟨List.mem_singleton.mp h, fun q hq hid => hc ⟨q, hq, hid⟩⟩

theorem insertPlace_covers (m : List PlaceBasic) (x y : PlaceBasic)
    (hy : (∃ q ∈ m, q.place_id = y.place_id) ∨ y.place_id = x.place_id) :
    ∃ q ∈ insertPlace m x, q.place_id = y.place_id := by
  unfold insertPlace
  by_cases hc : ∃ q ∈ m, q.place_id = x.place_id
  · rw [if_pos (by simpa [List.any_eq_true] using hc)]
    have hfid : ∀ q : PlaceBasic,
        (if q.place_id = x.place_id then
          { q with types := dedupFirst (q.types ++ x.types) }
        else q).place_id = q.place_id := by
      intro q
      by_cases h : q.place_id = x.place_id <;> simp [h]
    rcases hy with ⟨q, hq, hid⟩ | hid
    · exact ⟨_, List.mem_map.mpr ⟨q, hq, rfl⟩, (hfid q).trans hid⟩
    · obtain ⟨q, hq, hqx⟩ := hc
      exact ⟨_, List.mem_map.mpr ⟨q, hq, rfl⟩,
        (hfid q).trans (hqx.trans hid.symm)⟩
  · rw [if_neg (by simpa [List.any_eq_true] using hc)]
    rcases hy with ⟨q, hq, hid⟩ | hid
    · exact ⟨q, List.mem_append_left _ hq, hid⟩
    · exact ⟨x, List.mem_append_right _ (List.mem_singleton.mpr rfl), hid.symm⟩

/-- The invariant of the dedup fold: every stub stored in the map carries
the `place_id`, `name` and `location` of the first occurrence of its id in
the full input list. -/
theorem uniquePlaces_frame_aux (l : List PlaceBasic) :
    ∀ (rest pre m : List PlaceBasic), l = pre ++ rest →
    (∀ p ∈ m, ∃ b, l.find? (fun z => z.place_id = p.place_id) = some b ∧
      p.place_id = b.place_id ∧ p.name = b.name ∧ p.location = b.location) →
    (∀ y ∈ pre, ∃ q ∈ m, q.place_id = y.place_id) →
    ∀ p ∈ rest.foldl insertPlace m,
      ∃ b, l.find? (fun z => z.place_id = p.place_id) = some b ∧
        p.place_id = b.place_id ∧ p.name = b.name ∧ p.location = b.location := by
  intro rest
  induction rest with
  | nil => intro pre m _ hinv _ p hp; exact hinv p hp
  | cons x rest ih =>
    intro pre m hl hinv hcov p hp
    rw [List.foldl_cons] at hp
    refine ih (pre ++ [x]) (insertPlace m x) (by simp [hl]) ?_ ?_ p hp
    · intro e he
      rcases mem_insertPlace m x e he with ⟨q, hq, h1, h2, h3⟩ | ⟨hex, hfresh⟩
      · obtain ⟨b, hb, hb1, hb2, hb3⟩ := hinv q hq
        exact ⟨b, by rw [h1]; exact hb, h1.trans hb1, h2.trans hb2,
          h3.trans hb3⟩
      · refine ⟨x, ?_, by rw [hex], by rw [hex], by rw [hex]⟩
        rw [hex, hl, List.find?_append]
        have hprenone : pre.find? (fun z => decide (z.place_id = x.place_id)) =
            none := by
          rw [List.find?_eq_none]
          intro y hy
          simp only [decide_eq_true_eq]
          intro hyid
          obtain ⟨q, hq, hqy⟩ := hcov y hy
          exact hfresh q hq (hqy.trans hyid)
        rw [hprenone, Option.none_or, List.find?_cons_of_pos _ (by simp)]
    · intro y hy
      rcases List.mem_append.mp hy with h | h
      · exact insertPlace_covers m x y (Or.inl (hcov y h))
      · exact insertPlace_covers m x y
          (Or.inr (by rw [List.mem_singleton.mp h]))

/-! ## Claim C4 — dedup idempotence of the aggregator -/

/-- The dedup fold never stores two entries with the same id. -/
theorem uniquePlaces_ids_pairwise (l : List PlaceBasic) :
    (uniquePlaces l).Pairwise (fun a b => a.place_id ≠ b.place_id) := by
  suffices h : ∀ (rest m : List PlaceBasic),
      m.Pairwise (fun a b => a.place_id ≠ b.place_id) →
      (rest.foldl insertPlace m).Pairwise
        (fun a b => a.place_id ≠ b.place_id) from h l [] (by simp)
  intro rest
  induction rest with
  | nil => intro m hm; simpa using hm
  | cons x rest ih =>
    intro m hm
    rw [List.foldl_cons]
    apply ih
    unfold insertPlace
    by_cases hc : ∃ q ∈ m, q.place_id = x.place_id
    · rw [if_pos (by simpa [List.any_eq_true] using hc)]
      have hfid : ∀ q : PlaceBasic,
          ((if q.place_id = x.place_id then
            { q with types := dedupFirst (q.types ++ x.types) }
          else q) : PlaceBasic).place_id = q.place_id := by
        intro q
        by_cases h : q.place_id = x.place_id <;> simp [h]
      rw [List.pairwise_map]
      refine hm.imp ?_
      intro a b hab
      rw [hfid a, hfid b]
      exact hab
    · rw [if_neg (by simpa [List.any_eq_true] using hc)]
      rw [List.pairwise_append]
      refine ⟨hm, by simp, ?_⟩
      intro a ha b hb
      rw [List.mem_singleton] at hb
      subst hb
      exact fun hid => hc ⟨a, ha, hid⟩

/-- C4: the output mapping holds at most one entry per id, and inserting
two stubs with the same id (in either order) yields exactly one entry for
that id, whose tag set is the union of both inputs' tags, insensitively
to the order of the two tag sets. -/
theorem dedup_idempotence :
    (∀ l : List PlaceBasic,
      (uniquePlaces l).Pairwise (fun a b => a.place_id ≠ b.place_id)) ∧
    (∀ s1 s2 : PlaceBasic, s1.place_id = s2.place_id →
      ∃ p q, uniquePlaces [s1, s2] = [p] ∧ uniquePlaces [s2, s1] = [q] ∧
        p.place_id = s1.place_id ∧ q.place_id = s1.place_id ∧
        (∀ t, t ∈ p.types ↔ t ∈ s1.types ∨ t ∈ s2.types) ∧
        (∀ t, t ∈ q.types ↔ t ∈ p.types)) := by
  refine ⟨uniquePlaces_ids_pairwise, fun s1 s2 h => ?_⟩
  refine ⟨{ s1 with types := dedupFirst (s1.types ++ s2.types) },
          { s2 with types := dedupFirst (s2.types ++ s1.types) },
          ?_, ?_, rfl, h.symm, ?_, ?_⟩
  · simp [uniquePlaces, insertPlace, h]
  · simp [uniquePlaces, insertPlace, h.symm]
  · intro t
    simp [mem_dedupFirst, List.mem_append]
  · intro t
    simp only [mem_dedupFirst, List.mem_append]
    tauto

/-- Witness for C4 at a concrete colliding pair. -/
theorem dedup_idempotence_witness :
    ∃ p q,
      uniquePlaces [⟨"id1", "A", ["bar"], ⟨0, 0⟩⟩,
        ⟨"id1", "B", ["cafe"], ⟨1, 1⟩⟩] = [p] ∧
      uniquePlaces [⟨"id1", "B", ["cafe"], ⟨1, 1⟩⟩,
        ⟨"id1", "A", ["bar"], ⟨0, 0⟩⟩] = [q] ∧
      p.place_id = "id1" ∧ q.place_id = "id1" ∧
      (∀ t, t ∈ p.types ↔ t ∈ ["bar"] ∨ t ∈ ["cafe"]) ∧
      (∀ t, t ∈ q.types ↔ t ∈ p.types) :=
  dedup_idempotence.2 ⟨"id1", "A", ["bar"], ⟨0, 0⟩⟩
    ⟨"id1", "B", ["cafe"], ⟨1, 1⟩⟩ rfl

/-! ## Claim C10 — merge keeps the first occurrence's frame -/

/-- C10: every entry of the dedup mapping carries the `name` and
`location` (and id) of the first-inserted stub with its id — a colliding
later stub only ever changes the stored `types`. -/
theorem merge_frame (l : List PlaceBasic) (p : PlaceBasic)
    (hp : p ∈ uniquePlaces l) :
    ∃ b, l.find? (fun x => x.place_id = p.place_id) = some b ∧
      p.place_id = b.place_id ∧ p.name = b.name ∧ p.location = b.location :=
  uniquePlaces_frame_aux l l [] [] rfl (by simp) (by simp) p hp

/-- Witness for C10: two colliding stubs; the merged entry keeps the first
stub's name and location. -/
theorem merge_frame_witness :
    ∃ b, ([⟨"id1", "A", ["bar"], ⟨0, 0⟩⟩, ⟨"id1", "B", ["cafe"], ⟨1, 1⟩⟩] :
        List PlaceBasic).find?
        (fun x => x.place_id =
          (⟨"id1", "A", ["bar", "cafe"], ⟨0, 0⟩⟩ : PlaceBasic).place_id) =
        some b ∧
      (⟨"id1", "A", ["bar", "cafe"], ⟨0, 0⟩⟩ : PlaceBasic).place_id =
        b.place_id ∧
      (⟨"id1", "A", ["bar", "cafe"], ⟨0, 0⟩⟩ : PlaceBasic).name = b.name ∧
      (⟨"id1", "A", ["bar", "cafe"], ⟨0, 0⟩⟩ : PlaceBasic).location =
        b.location :=
  merge_frame [⟨"id1", "A", ["bar"], ⟨0, 0⟩⟩, ⟨"id1", "B", ["cafe"], ⟨1, 1⟩⟩]
    ⟨"id1", "A", ["bar", "cafe"], ⟨0, 0⟩⟩ (by decide)

/-! ## Claim C5 — distance/exclusion filter -/

/-- C5: a deduplicated stub is retained iff its recomputed distance from
the origin is at most the radius and its id is not excluded; in
particular every POI discarded for a reason other than exclusion has
recomputed distance exceeding the radius. -/
theorem distance_filter (dist : Location → Location → ℤ) (origin : Location)
    (radiusMeters : ℤ) (excludeList : List String) (places : List PlaceBasic) :
    (∀ p, p ∈ filteredPlaces dist origin radiusMeters excludeList places ↔
      p ∈ places ∧ dist origin p.location ≤ radiusMeters ∧
        p.place_id ∉ excludeList) ∧
    (∀ p ∈ places,
      p ∉ filteredPlaces dist origin radiusMeters excludeList places →
      p.place_id ∉ excludeList →
      radiusMeters < dist origin p.location) := by
  have hmem : ∀ p, p ∈ filteredPlaces dist origin radiusMeters excludeList
      places ↔ p ∈ places ∧ dist origin p.location ≤ radiusMeters ∧
      p.place_id ∉ excludeList := by
    intro p
    simp [filteredPlaces, List.mem_filter]
  refine ⟨hmem, fun p hp hnot hexc => ?_⟩
  by_contra hle
  exact hnot ((hmem p).mpr ⟨hp, le_of_not_lt hle, hexc⟩)

/-- Witness for C5: a concrete stub within radius and not excluded is
retained. -/
theorem distance_filter_witness :
    (⟨"id1", "A", ["bar"], ⟨0, 0⟩⟩ : PlaceBasic) ∈
      filteredPlaces (fun _ _ => 5) ⟨0, 0⟩ 10 ["other"]
        [⟨"id1", "A", ["bar"], ⟨0, 0⟩⟩] :=
  ((distance_filter (fun _ _ => 5) ⟨0, 0⟩ 10 ["other"]
      [⟨"id1", "A", ["bar"], ⟨0, 0⟩⟩]).1
    ⟨"id1", "A", ["bar"], ⟨0, 0⟩⟩).mpr
    ⟨by decide, by decide, by decide⟩

/-! ## Claim C6 — detail-fetch error recovery (corrected) -/

/-- Counterexample for C6 as stated: a transport-level failure of the
detail fetch is *not* recovered — `getPlaceDetails` propagates the
rejection instead of returning the empty record (the source only guards
`!response.ok`; the `await fetch(...)` itself is not wrapped in
`try`/`catch`). -/
theorem detail_fetch_counterexample :
    getPlaceDetails (Except.error "network failure") =
      Except.error "network failure" ∧
    getPlaceDetails (Except.error "network failure") ≠
      Except.ok emptyDetails := by
  constructor
  · rfl
  · intro h
    exact Except.noConfusion h

/-- C6 amended: on an HTTP failure (a delivered response with
`ok = false`) `getPlaceDetails` returns the empty record rather than
raising; a transport-level failure, however, propagates unchanged. -/
theorem detail_fetch_amended (response : DetailResponse)
    (h : response.ok = false) (e : String) :
    getPlaceDetails (Except.ok response) = Except.ok emptyDetails ∧
    getPlaceDetails (Except.error e) = Except.error e := by
  constructor
  · simp [getPlaceDetails, h]
  · rfl

/-- Witness for the amended C6 at a concrete non-ok response. -/
theorem detail_fetch_amended_witness :
    getPlaceDetails (Except.ok ⟨false, 500, some 4, some 10,
      some "PRICE_LEVEL_MODERATE", some ["monday: 1"], some "addr",
      some "url"⟩) = Except.ok emptyDetails ∧
    getPlaceDetails (Except.error "HTTP 500 after delivery") =
      Except.error "HTTP 500 after delivery" :=
  detail_fetch_amended ⟨false, 500, some 4, some 10,
    some "PRICE_LEVEL_MODERATE", some ["monday: 1"], some "addr",
    some "url"⟩ rfl "HTTP 500 after delivery"

/-! ## Claim C8 — sort stability -/

/-- C8: the final list is sorted ascending by `distance_meters`, is a
permutation of its input (the enrichment list in aggregation-mapping
iteration order), and two entries with equal computed distance keep their
relative input order. -/
theorem sort_stability (l : List PlaceDetailed) :
    (sortPlaces l).Pairwise
      (fun a b => a.distance_meters ≤ b.distance_meters) ∧
    (sortPlaces l).Perm l ∧
    ∀ a b, a.distance_meters = b.distance_meters →
      [a, b].Sublist l → [a, b].Sublist (sortPlaces l) := by
  have htrans : ∀ a b c : PlaceDetailed,
      decide (a.distance_meters ≤ b.distance_meters) = true →
      decide (b.distance_meters ≤ c.distance_meters) = true →
      decide (a.distance_meters ≤ c.distance_meters) = true := by
    intro a b c
    simp only [decide_eq_true_eq]
    omega
  have htotal : ∀ a b : PlaceDetailed,
      (decide (a.distance_meters ≤ b.distance_meters) ||
        decide (b.distance_meters ≤ a.distance_meters)) = true := by
    intro a b
    simp only [Bool.or_eq_true, decide_eq_true_eq]
    omega
  refine ⟨?_, ?_, ?_⟩
  · have := List.sorted_mergeSort htrans htotal l
    exact this.imp (by simp)
  · exact List.mergeSort_perm l _
  · intro a b hdist hsub
    exact List.pair_sublist_mergeSort htrans htotal (by simp [hdist]) hsub

/-- Witness for C8: two concrete equal-distance entries in input order
stay in that order after sorting. -/
theorem sort_stability_witness :
    [(⟨"id1", "A", ["bar"], 7, ⟨0, 0⟩, none, 0, none, none, "", ""⟩ :
        PlaceDetailed),
      ⟨"id2", "B", ["cafe"], 7, ⟨1, 1⟩, none, 0, none, none, "", ""⟩].Sublist
      (sortPlaces
        [⟨"id1", "A", ["bar"], 7, ⟨0, 0⟩, none, 0, none, none, "", ""⟩,
         ⟨"id2", "B", ["cafe"], 7, ⟨1, 1⟩, none, 0, none, none, "", ""⟩]) :=
  (sort_stability
      [⟨"id1", "A", ["bar"], 7, ⟨0, 0⟩, none, 0, none, none, "", ""⟩,
       ⟨"id2", "B", ["cafe"], 7, ⟨1, 1⟩, none, 0, none, none, "", ""⟩]).2.2
    _ _ rfl (List.Sublist.refl _)

/-! ## Claim C9 — output tag filtering -/

/-- C9: every place in the final output carries as `types` the merged tag
list of its aggregated stub restricted to the fixed whitelist; when that
restriction is empty, the first three merged tags are used instead. -/
theorem output_types (dist : Location → Location → ℤ) (origin : Location)
    (radiusMeters : ℤ) (excludeList : List String)
    (details : String → DetailRecord) (allPlaces : List PlaceBasic) :
    ∀ p ∈ placesPipeline dist origin radiusMeters excludeList details
        allPlaces,
      ∃ b ∈ uniquePlaces allPlaces, p.place_id = b.place_id ∧
        ((relevantTypes b.types ≠ [] ∧ p.types = relevantTypes b.types ∧
           (∀ t, t ∈ p.types ↔ t ∈ b.types ∧ t ∈ foodTypes)) ∨
         (relevantTypes b.types = [] ∧ p.types = b.types.take 3)) := by
  intro p hp
  rw [placesPipeline] at hp
  rw [sortPlaces, List.mem_mergeSort] at hp
  rw [buildDetailed, List.mem_map] at hp
  obtain ⟨b, hb, hpb⟩ := hp
  have hbu : b ∈ uniquePlaces allPlaces := by
    have := List.mem_filter.mp hb
    exact this.1
  refine ⟨b, hbu, ?_, ?_⟩
  · rw [← hpb]
  · by_cases hrel : (relevantTypes b.types).isEmpty
    · right
      refine ⟨List.isEmpty_iff.mp hrel, ?_⟩
      rw [← hpb]
      simp [hrel]
    · left
      have hne : relevantTypes b.types ≠ [] := by
        simpa [List.isEmpty_iff] using hrel
      refine ⟨hne, ?_, ?_⟩
      · rw [← hpb]
        simp [hrel]
      · intro t
        rw [← hpb]
        simp only [Bool.not_eq_true] at hrel
        simp only [hrel, Bool.false_eq_true, if_false]
        simp [relevantTypes, List.mem_filter]

/-- Witness for C9 at a one-stub pipeline whose stub has a whitelisted
tag. -/
theorem output_types_witness :
    ∃ b ∈ uniquePlaces [(⟨"id1", "A", ["bar", "museum"], ⟨0, 0⟩⟩ :
        PlaceBasic)],
      (⟨"id1", "A", ["bar"], 5, ⟨0, 0⟩, none, 0, none, none, "", ""⟩ :
          PlaceDetailed).place_id = b.place_id ∧
      ((relevantTypes b.types ≠ [] ∧
         (⟨"id1", "A", ["bar"], 5, ⟨0, 0⟩, none, 0, none, none, "", ""⟩ :
             PlaceDetailed).types = relevantTypes b.types ∧
         (∀ t, t ∈ (⟨"id1", "A", ["bar"], 5, ⟨0, 0⟩, none, 0, none, none,
             "", ""⟩ : PlaceDetailed).types ↔
           t ∈ b.types ∧ t ∈ foodTypes)) ∨
       (relevantTypes b.types = [] ∧
         (⟨"id1", "A", ["bar"], 5, ⟨0, 0⟩, none, 0, none, none, "", ""⟩ :
             PlaceDetailed).types = b.types.take 3)) :=
  output_types (fun _ _ => 5) ⟨0, 0⟩ 10 [] (fun _ => emptyDetails)
    [⟨"id1", "A", ["bar", "museum"], ⟨0, 0⟩⟩]
    ⟨"id1", "A", ["bar"], 5, ⟨0, 0⟩, none, 0, none, none, "", ""⟩
    (by simp [placesPipeline, sortPlaces, uniquePlaces, insertPlace,
      filteredPlaces, buildDetailed, relevantTypes, foodTypes, dedupFirst,
      dedupFirstAux, emptyDetails, parseOpeningHours])

/-! ## Claim C7 — opening-hours parsing -/

/-- The contribution of a single line: the entry it would add to the hours
object, if any — present iff the line matches the pattern and its
lower-cased word is one of the seven weekday names. -/
def entryOf (line : String) : Option (String × String) :=
  match matchLine line with
  | some (w, rest) =>
    if lowerString w ∈ days then some (lowerString w, rest) else none
  | none => none

theorem hoursStep_eq (m : List (String × String)) (line : String) :
    hoursStep m line = match entryOf line with
      | some dv => upsert m dv.1 dv.2
      | none => m := by
  unfold hoursStep entryOf
  cases h : matchLine line with
  | none => rfl
  | some wr =>
    obtain ⟨w, rest⟩ := wr
    by_cases hd : lowerString w ∈ days <;> simp [hd]

theorem upsert_ne_nil (m : List (String × String)) (k v : String) :
    upsert m k v ≠ [] := by
  unfold upsert
  by_cases hc : (m.any fun e => decide (e.1 = k)) = true
  · rw [if_pos hc]
    intro hmap
    rw [List.map_eq_nil_iff] at hmap
    subst hmap
    simp at hc
  · rw [if_neg hc]
    simp

theorem upsert_key_mem (m : List (String × String)) (k v d : String) :
    (∃ w, (d, w) ∈ upsert m k v) ↔ (∃ w, (d, w) ∈ m) ∨ d = k := by
  unfold upsert
  by_cases hc : (m.any fun e => decide (e.1 = k)) = true
  · rw [if_pos hc]
    constructor
    · rintro ⟨w, hw⟩
      obtain ⟨e, he, hfe⟩ := List.mem_map.mp hw
      by_cases h : e.1 = k
      · rw [if_pos h] at hfe
        right
        exact ((Prod.mk.injEq _ _ _ _).mp hfe).1.symm
      · rw [if_neg h] at hfe
        left
        exact ⟨w, hfe ▸ he⟩
    · rintro (⟨w, hw⟩ | rfl)
      · by_cases h : d = k
        · refine ⟨v, List.mem_map.mpr ⟨(d, w), hw, ?_⟩⟩
          simp [h]
        · refine ⟨w, List.mem_map.mpr ⟨(d, w), hw, ?_⟩⟩
          simp [h]
      · rw [List.any_eq_true] at hc
        obtain ⟨e, he, hek⟩ := hc
        simp only [decide_eq_true_eq] at hek
        refine ⟨v, List.mem_map.mpr ⟨e, he, ?_⟩⟩
        simp [hek]
  · rw [if_neg hc]
    constructor
    · rintro ⟨w, hw⟩
      rcases List.mem_append.mp hw with h | h
      · exact Or.inl ⟨w, h⟩
      · right
        exact ((Prod.mk.injEq _ _ _ _).mp (List.mem_singleton.mp h)).1
    · rintro (⟨w, hw⟩ | rfl)
      · exact ⟨w, List.mem_append_left _ hw⟩
      · exact ⟨v, List.mem_append_right _ (List.mem_singleton.mpr rfl)⟩

theorem foldl_hoursStep_nil (lines : List String) :
    ∀ m, lines.foldl hoursStep m = [] ↔
      m = [] ∧ ∀ line ∈ lines, entryOf line = none := by
  induction lines with
  | nil => simp
  | cons line rest ih =>
    intro m
    rw [List.foldl_cons, ih, hoursStep_eq]
    cases h : entryOf line with
    | none => simp [h, List.forall_mem_cons]
    | some dv => simp [h, List.forall_mem_cons, upsert_ne_nil]

theorem foldl_hoursStep_key (lines : List String) :
    ∀ (m : List (String × String)) (d : String),
      (∃ v, (d, v) ∈ lines.foldl hoursStep m) ↔
      (∃ v, (d, v) ∈ m) ∨ ∃ line ∈ lines, ∃ v, entryOf line = some (d, v) := by
  induction lines with
  | nil => simp
  | cons line rest ih =>
    intro m d
    rw [List.foldl_cons, ih, hoursStep_eq]
    cases h : entryOf line with
    | none => simp [h, List.exists_mem_cons_iff]
    | some dv =>
      obtain ⟨dk, dvv⟩ := dv
      rw [upsert_key_mem]
      simp only [h, List.exists_mem_cons_iff, Option.some.injEq,
        Prod.mk.injEq]
      have hdd : (∃ v, dk = d ∧ dvv = v) ↔ d = dk := by
        constructor
        · rintro ⟨v, h1, -⟩
          exact h1.symm
        · rintro rfl
          exact ⟨dvv, rfl, rfl⟩
      rw [hdd]
      tauto

theorem entryOf_day_mem (line d v : String)
    (h : entryOf line = some (d, v)) : d ∈ days := by
  unfold entryOf at h
  revert h
  cases hm : matchLine line with
  | none => simp
  | some wr =>
    obtain ⟨w, r⟩ := wr
    by_cases hd : lowerString w ∈ days <;> simp [hd]
    rintro rfl _
    exact hd

theorem parse_some_inv (lines : List String) (hs : List (String × String))
    (h : parseOpeningHours (some lines) = some hs) :
    hs = lines.foldl hoursStep [] ∧ hs ≠ [] := by
  simp only [parseOpeningHours] at h
  by_cases hl : lines.isEmpty = true
  · rw [if_pos hl] at h
    exact absurd h (by simp)
  · rw [if_neg hl] at h
    by_cases hf : (lines.foldl hoursStep []).isEmpty = true
    · rw [if_pos hf] at h
      exact absurd h (by simp)
    · rw [if_neg hf] at h
      have hhs : hs = lines.foldl hoursStep [] := (Option.some.inj h).symm
      subst hhs
      exact ⟨rfl, by simpa [List.isEmpty_iff] using hf⟩

/-- C7: a line contributes an entry (lower-cased word, rest) iff it
matches `word: rest` with the lower-cased word one of the seven weekday
names; all other lines are dropped; an input with no contributing line
yields `none`, never an empty mapping; and the two concrete examples of
§8 parse as specified. -/
theorem opening_hours_parse :
    parseOpeningHours none = none ∧
    (∀ lines, parseOpeningHours (some lines) = none ↔
      ∀ line ∈ lines, entryOf line = none) ∧
    (∀ lines, parseOpeningHours (some lines) ≠ some []) ∧
    (∀ lines d,
      (∃ hs v, parseOpeningHours (some lines) = some hs ∧ (d, v) ∈ hs) ↔
      ∃ line ∈ lines, ∃ v, entryOf line = some (d, v)) ∧
    (∀ lines hs d v, parseOpeningHours (some lines) = some hs →
      (d, v) ∈ hs → d ∈ days) ∧
    parseOpeningHours (some ["monday: 9:00 AM – 5:00 PM"]) =
      some [("monday", "9:00 AM – 5:00 PM")] ∧
    parseOpeningHours (some ["Closed all week"]) = none ∧
    parseOpeningHours
        (some ["Closed all week", "monday: 9:00 AM – 5:00 PM"]) =
      some [("monday", "9:00 AM – 5:00 PM")] := by
  have hnone : ∀ lines, parseOpeningHours (some lines) = none ↔
      ∀ line ∈ lines, entryOf line = none := by
    intro lines
    simp only [parseOpeningHours]
    by_cases hl : lines.isEmpty = true
    · rw [if_pos hl]
      rw [List.isEmpty_iff] at hl
      subst hl
      simp
    · rw [if_neg hl]
      by_cases hf : (lines.foldl hoursStep []).isEmpty = true
      · rw [if_pos hf]
        rw [List.isEmpty_iff] at hf
        rw [foldl_hoursStep_nil] at hf
        simpa using hf.2
      · rw [if_neg hf]
        rw [List.isEmpty_iff] at hf
        simp only [Option.some_ne_none, false_iff]
        intro hall
        exact hf ((foldl_hoursStep_nil lines []).mpr ⟨rfl, hall⟩)
  refine ⟨rfl, hnone, ?_, ?_, ?_, by decide, by decide, by decide⟩
  · intro lines h
    exact (parse_some_inv lines [] h).2 rfl
  · intro lines d
    constructor
    · rintro ⟨hs, v, hp, hv⟩
      obtain ⟨rfl, -⟩ := parse_some_inv lines hs hp
      exact ((foldl_hoursStep_key lines [] d).mp ⟨v, hv⟩).resolve_left
        (by simp)
    · rintro ⟨line, hline, v, hv⟩
      have hne : ¬ parseOpeningHours (some lines) = none := by
        rw [hnone]
        intro hall
        rw [hall line hline] at hv
        exact Option.noConfusion hv
      obtain ⟨hs, hp⟩ := Option.ne_none_iff_exists'.mp hne
      obtain ⟨rfl, -⟩ := parse_some_inv lines hs hp
      obtain ⟨v', hv'⟩ := (foldl_hoursStep_key lines [] d).mpr
        (Or.inr ⟨line, hline, v, hv⟩)
      exact ⟨_, v', hp, hv'⟩
  · intro lines hs d v hp hv
    obtain ⟨rfl, -⟩ := parse_some_inv lines hs hp
    rcases ((foldl_hoursStep_key lines [] d).mp ⟨v, hv⟩).resolve_left
        (by simp) with ⟨line, -, v', hv'⟩
    exact entryOf_day_mem line d v' hv'

/-- Witness for C7: the weekday-membership consequence applied at the
concrete example line. -/
theorem opening_hours_parse_witness : "monday" ∈ days :=
  opening_hours_parse.2.2.2.2.1 ["monday: 9:00 AM – 5:00 PM"]
    [("monday", "9:00 AM – 5:00 PM")] "monday" "9:00 AM – 5:00 PM"
    (by decide) (by decide)

/-! ## Claims C2/C3 — recursion structure of the area search -/

theorem searchFold_isSome (f : Location → Option (List PlaceBasic × ℕ)) :
    ∀ (qs : List Location) (init : Option (List PlaceBasic × ℕ)),
      init.isSome → (∀ q ∈ qs, (f q).isSome) →
      (qs.foldl (fun acc quad => do
        let (accList, accCalls) ← acc
        let (quadResults, quadCalls) ← f quad
        pure (accList ++ quadResults, accCalls + quadCalls)) init).isSome := by
  intro qs
  induction qs with
  | nil => intro init hinit _; simpa using hinit
  | cons q qs ih =>
    intro init hinit hf
    rw [List.foldl_cons]
    refine ih _ ?_ (fun q' hq' => hf q' (by simp [hq']))
    obtain ⟨⟨ls, n⟩, hi⟩ := Option.isSome_iff_exists.mp hinit
    obtain ⟨⟨l, m⟩, hq⟩ := Option.isSome_iff_exists.mp (hf q (by simp))
    rw [hi, hq]
    simp

theorem searchFold_calls (f : Location → Option (List PlaceBasic × ℕ))
    (B : ℕ) (hf : ∀ q l n, f q = some (l, n) → n ≤ B) :
    ∀ (qs : List Location) (init : Option (List PlaceBasic × ℕ))
      (initB : ℕ) (res : List PlaceBasic) (calls : ℕ),
      (∀ l n, init = some (l, n) → n ≤ initB) →
      qs.foldl (fun acc quad => do
        let (accList, accCalls) ← acc
        let (quadResults, quadCalls) ← f quad
        pure (accList ++ quadResults, accCalls + quadCalls)) init =
          some (res, calls) →
      calls ≤ initB + qs.length * B := by
  intro qs
  induction qs with
  | nil =>
    intro init initB res calls hinit h
    rw [List.foldl_nil] at h
    simpa using hinit res calls h
  | cons q qs ih =>
    intro init initB res calls hinit h
    rw [List.foldl_cons] at h
    have hstep : ∀ l n,
        (do
          let (accList, accCalls) ← init
          let (quadResults, quadCalls) ← f q
          pure (accList ++ quadResults, accCalls + quadCalls)) = some (l, n) →
        n ≤ initB + B := by
      intro l n hs
      rcases hi : init with _ | ⟨⟨ls, n0⟩⟩
      · rw [hi] at hs
        exact absurd hs (by simp)
      · rw [hi] at hs
        rcases hq : f q with _ | ⟨⟨l1, m1⟩⟩
        · rw [hq] at hs
          exact absurd hs (by simp)
        · rw [hq] at hs
          simp only [Option.bind_some, Option.some.injEq, Prod.mk.injEq] at hs
          obtain ⟨-, rfl⟩ := hs
          exact Nat.add_le_add (hinit ls n0 hi) (hf q l1 m1 hq)
    have := ih _ (initB + B) res calls hstep h
    calc calls ≤ (initB + B) + qs.length * B := this
      _ = initB + (qs.length + 1) * B := by ring
      _ = initB + (q :: qs).length * B := by simp

theorem three_mul_callBound (fuel : ℕ) : 3 * callBound fuel + 1 = 4 ^ fuel := by
  induction fuel with
  | zero => rfl
  | succ fuel ih =>
    calc 3 * callBound (fuel + 1) + 1 = 4 * (3 * callBound fuel + 1) := by
          rw [callBound]; ring
      _ = 4 * 4 ^ fuel := by rw [ih]
      _ = 4 ^ (fuel + 1) := by rw [pow_succ]; ring

theorem callBound_le_pow (fuel : ℕ) : callBound fuel ≤ 4 ^ fuel :=
  le_trans (by omega) (le_of_eq (three_mul_callBound fuel))

theorem searchRec_isSome (provider : Location → ℚ → List PlaceBasic)
    (cosd : ℚ → ℚ) (minRadius : ℚ) :
    ∀ (fuel : ℕ) (center : Location) (radius : ℚ),
      radius ≤ minRadius * 2 ^ fuel →
      (searchNearbyRecursive provider cosd minRadius (fuel + 1) center
        radius).isSome := by
  intro fuel
  induction fuel with
  | zero =>
    intro center radius h
    simp only [searchNearbyRecursive]
    rw [if_pos (Or.inr (by simpa using h))]
    simp
  | succ fuel ih =>
    intro center radius h
    by_cases hcond : (provider center radius).length < 20 ∨ radius ≤ minRadius
    · simp only [searchNearbyRecursive]
      rw [if_pos hcond]
      simp
    · have hhalf : radius / 2 ≤ minRadius * 2 ^ fuel := by
        rw [pow_succ] at h
        linarith
      simp only [searchNearbyRecursive]
      rw [if_neg hcond]
      exact searchFold_isSome _ _ _ (by simp)
        (fun q _ => ih q (radius / 2) hhalf)

theorem searchRec_calls_le (provider : Location → ℚ → List PlaceBasic)
    (cosd : ℚ → ℚ) (minRadius : ℚ) :
    ∀ (fuel : ℕ) (center : Location) (radius : ℚ)
      (results : List PlaceBasic) (calls : ℕ),
      searchNearbyRecursive provider cosd minRadius fuel center radius =
        some (results, calls) →
      calls ≤ callBound fuel := by
  intro fuel
  induction fuel with
  | zero =>
    intro center radius results calls h
    exact absurd h (by simp [searchNearbyRecursive])
  | succ fuel ih =>
    intro center radius results calls h
    by_cases hcond : (provider center radius).length < 20 ∨ radius ≤ minRadius
    · simp only [searchNearbyRecursive] at h
      rw [if_pos hcond] at h
      simp only [Option.some.injEq, Prod.mk.injEq] at h
      obtain ⟨-, rfl⟩ := h
      rw [callBound]
      omega
    · simp only [searchNearbyRecursive] at h
      rw [if_neg hcond] at h
      have hcalls := searchFold_calls
        (fun q => searchNearbyRecursive provider cosd minRadius fuel q
          (radius / 2))
        (callBound fuel) (fun q l n hq => ih q (radius / 2) l n hq)
        (quadrantCenters cosd center (radius / 2)) (some ([], 1)) 1
        results calls (by simp) h
      rw [callBound]
      have hlen : (quadrantCenters cosd center (radius / 2)).length = 4 := by
        simp [quadrantCenters]
      rw [hlen] at hcalls
      omega

/-- C2: for every positive radius and minimum radius, the recursive
search completes with fuel `⌈log2(radius/minRadius)⌉ + 1` (i.e. it
terminates: each level halves the radius until the floor is reached), and
the number of area-search calls it issues is at most `4 ^ (that depth)` —
the `O(4^log2(radius/minRadius))` bound of §8. -/
theorem search_termination_bound (provider : Location → ℚ → List PlaceBasic)
    (cosd : ℚ → ℚ) (center : Location) (radius minRadius : ℚ)
    (hr : 0 < radius) (hm : 0 < minRadius) :
    ∃ results calls,
      searchNearbyRecursive provider cosd minRadius
        (Nat.clog 2 ⌈radius / minRadius⌉.toNat + 1) center radius =
        some (results, calls) ∧
      calls ≤ 4 ^ (Nat.clog 2 ⌈radius / minRadius⌉.toNat + 1) := by
  have hpos : 0 < radius / minRadius := div_pos hr hm
  have hceil_pos : 0 < ⌈radius / minRadius⌉ := Int.ceil_pos.mpr hpos
  have hrm : radius ≤ minRadius * 2 ^ Nat.clog 2 ⌈radius / minRadius⌉.toNat := by
    have h2 : (⌈radius / minRadius⌉.toNat : ℤ) = ⌈radius / minRadius⌉ :=
      Int.toNat_of_nonneg (le_of_lt hceil_pos)
    have h3 : ⌈radius / minRadius⌉.toNat ≤
        2 ^ Nat.clog 2 ⌈radius / minRadius⌉.toNat :=
      Nat.le_pow_clog one_lt_two _
    have h4 : (radius / minRadius : ℚ) ≤
        (2 : ℚ) ^ Nat.clog 2 ⌈radius / minRadius⌉.toNat := by
      calc radius / minRadius ≤ (⌈radius / minRadius⌉ : ℚ) := Int.le_ceil _
        _ = ((⌈radius / minRadius⌉.toNat : ℤ) : ℚ) := by rw [h2]
        _ ≤ (((2 ^ Nat.clog 2 ⌈radius / minRadius⌉.toNat : ℕ) : ℤ) : ℚ) := by
            exact_mod_cast h3
        _ = (2 : ℚ) ^ Nat.clog 2 ⌈radius / minRadius⌉.toNat := by push_cast; ring
    calc radius = (radius / minRadius) * minRadius := by field_simp
      _ ≤ (2 : ℚ) ^ Nat.clog 2 ⌈radius / minRadius⌉.toNat * minRadius :=
          mul_le_mul_of_nonneg_right h4 (le_of_lt hm)
      _ = minRadius * 2 ^ Nat.clog 2 ⌈radius / minRadius⌉.toNat := mul_comm _ _
  have hsome := searchRec_isSome provider cosd minRadius
    (Nat.clog 2 ⌈radius / minRadius⌉.toNat) center radius hrm
  obtain ⟨⟨results, calls⟩, hres⟩ := Option.isSome_iff_exists.mp hsome
  refine ⟨results, calls, hres, ?_⟩
  calc calls ≤ callBound (Nat.clog 2 ⌈radius / minRadius⌉.toNat + 1) :=
        searchRec_calls_le provider cosd minRadius _ center radius results
          calls hres
    _ ≤ 4 ^ (Nat.clog 2 ⌈radius / minRadius⌉.toNat + 1) := callBound_le_pow _

/-- Witness for C2 at radius 1000, minRadius 500 and a trivial provider. -/
theorem search_termination_bound_witness :
    ∃ results calls,
      searchNearbyRecursive (fun _ _ => []) (fun _ => 1) 500
        (Nat.clog 2 ⌈(1000 : ℚ) / 500⌉.toNat + 1) ⟨0, 0⟩ 1000 =
        some (results, calls) ∧
      calls ≤ 4 ^ (Nat.clog 2 ⌈(1000 : ℚ) / 500⌉.toNat + 1) :=
  search_termination_bound (fun _ _ => []) (fun _ => 1) ⟨0, 0⟩ 1000 500
    (by norm_num) (by norm_num)

/-- The subdivision branch of `searchNearbyRecursive`: when the cap is
hit and the radius is above the floor, the call is the concatenation of
the four quadrant child calls, with one extra call counted for the
parent. -/
theorem searchRec_subdivide :
    ∀ (provider : Location → ℚ → List PlaceBasic) (cosd : ℚ → ℚ)
      (minRadius radius : ℚ) (fuel : ℕ) (center : Location)
      (l1 l2 l3 l4 : List PlaceBasic) (n1 n2 n3 n4 : ℕ),
      20 ≤ (provider center radius).length → minRadius < radius →
      (quadrantCenters cosd center (radius / 2)).map
          (fun q => searchNearbyRecursive provider cosd minRadius fuel q
            (radius / 2)) =
        [some (l1, n1), some (l2, n2), some (l3, n3), some (l4, n4)] →
      searchNearbyRecursive provider cosd minRadius (fuel + 1) center radius =
        some (l1 ++ l2 ++ l3 ++ l4, 1 + n1 + n2 + n3 + n4) := by
  intro provider cosd minRadius radius fuel center l1 l2 l3 l4 n1 n2 n3 n4
    hcap hrad hchild
  have hcond : ¬((provider center radius).length < 20 ∨
      radius ≤ minRadius) := by
    rintro (h | h)
    · omega
    · exact absurd h (not_le.mpr hrad)
  simp only [quadrantCenters, List.map_cons, List.map_nil,
    List.cons.injEq, and_true] at hchild
  obtain ⟨h1, h2, h3, h4⟩ := hchild
  simp only [searchNearbyRecursive]
  rw [if_neg hcond]
  simp only [quadrantCenters, List.foldl_cons, List.foldl_nil,
    h1, h2, h3, h4]
  simp

/-- The floor branch of `searchNearbyRecursive`: at `radius ≤ minRadius`
the provider results are returned as-is with one call counted. -/
theorem searchRec_floor (provider : Location → ℚ → List PlaceBasic)
    (cosd : ℚ → ℚ) (minRadius radius : ℚ) (fuel : ℕ) (q : Location)
    (h : radius ≤ minRadius) :
    searchNearbyRecursive provider cosd minRadius (fuel + 1) q radius =
      some (provider q radius, 1) := by
  simp only [searchNearbyRecursive]
  rw [if_pos (Or.inr h)]

/-- C3: when a search call hits the cap (≥ 20 results) with
radius > minRadius, the engine issues exactly the 4 quadrant child
searches at half the radius and the same minRadius, and returns their
concatenation with one extra call counted for the parent; in particular
at radius 1000, minRadius 500, a first call returning 20 stubs causes
exactly 4 additional calls at radius 500 each (5 calls total) and the
result is the concatenation of the four children's results. -/
theorem subdivision_step :
    (∀ (provider : Location → ℚ → List PlaceBasic) (cosd : ℚ → ℚ)
      (minRadius radius : ℚ) (fuel : ℕ) (center : Location)
      (l1 l2 l3 l4 : List PlaceBasic) (n1 n2 n3 n4 : ℕ),
      20 ≤ (provider center radius).length → minRadius < radius →
      (quadrantCenters cosd center (radius / 2)).map
          (fun q => searchNearbyRecursive provider cosd minRadius fuel q
            (radius / 2)) =
        [some (l1, n1), some (l2, n2), some (l3, n3), some (l4, n4)] →
      searchNearbyRecursive provider cosd minRadius (fuel + 1) center radius =
        some (l1 ++ l2 ++ l3 ++ l4, 1 + n1 + n2 + n3 + n4)) ∧
    (∀ (provider : Location → ℚ → List PlaceBasic) (cosd : ℚ → ℚ)
      (center : Location),
      (provider center (1000 : ℚ)).length = 20 →
      searchNearbyRecursive provider cosd 500 2 center 1000 =
        some (((quadrantCenters cosd center 500).map
          (fun q => provider q 500)).flatten, 5)) := by
  refine ⟨searchRec_subdivide, ?_⟩
  intro provider cosd center hlen
  have hchild : ∀ q : Location,
      searchNearbyRecursive provider cosd 500 1 q 500 =
        some (provider q 500, 1) := fun q =>
    searchRec_floor provider cosd 500 500 0 q le_rfl
  have h1000 : (1000 : ℚ) / 2 = 500 := by norm_num
  have := searchRec_subdivide provider cosd 500 1000 1 center
    (provider ((quadrantCenters cosd center 500).get ⟨0, by simp [quadrantCenters]⟩) 500)
    (provider ((quadrantCenters cosd center 500).get ⟨1, by simp [quadrantCenters]⟩) 500)
    (provider ((quadrantCenters cosd center 500).get ⟨2, by simp [quadrantCenters]⟩) 500)
    (provider ((quadrantCenters cosd center 500).get ⟨3, by simp [quadrantCenters]⟩) 500)
    1 1 1 1 (by omega) (by norm_num) ?_
  · rw [this]
    simp only [quadrantCenters]
    norm_num
  · rw [h1000]
    simp only [quadrantCenters, List.map_cons, List.map_nil, hchild]
    rfl

/-- Witness for C3: a provider constantly returning 20 stubs triggers one
subdivision at radius 1000, minRadius 500, for 5 calls total. -/
theorem subdivision_step_witness :
    searchNearbyRecursive
        (fun _ _ => List.replicate 20 ⟨"id", "A", ["bar"], ⟨0, 0⟩⟩)
        (fun _ => 1) 500 2 ⟨0, 0⟩ 1000 =
      some (((quadrantCenters (fun _ => 1) ⟨0, 0⟩ 500).map
        (fun _ => List.replicate 20
          (⟨"id", "A", ["bar"], ⟨0, 0⟩⟩ : PlaceBasic))).flatten, 5) :=
  subdivision_step.2
    (fun _ _ => List.replicate 20 ⟨"id", "A", ["bar"], ⟨0, 0⟩⟩)
    (fun _ => 1) ⟨0, 0⟩ (by simp)

/-! ## Claim C1 — coverage of the quadrant subdivision (corrected)

In the flat-Earth model of §4.1 the four child centers sit, in planar
meters, at `(±newRadius, ±newRadius)` from the parent center (the
longitude scale factor cancels exactly).  Four circles of radius
`newRadius` around those points do **not** cover the parent circle of
radius `2·newRadius`: the parent center itself is at planar distance
`newRadius·√2 > newRadius` from every child center.  Coverage does hold
with the child radius enlarged by a factor `√2`. -/

/-- Counterexample for C1 as stated, at `center.lat = 0` (`cosLat = 1`),
`radius = 1000`: the parent center is inside the parent circle but its
squared planar distance to each of the four child centers is
`2·500² = 500000 > 500²`, so no child circle of radius `newRadius`
contains it. -/
theorem coverage_counterexample :
    planarDistSq 1 ⟨0, 0⟩ ⟨0, 0⟩ ≤ 1000 ^ 2 ∧
    quadrantCenters (fun _ => 1) ⟨0, 0⟩ (1000 / 2) =
      [⟨500 / 111320, -(500 / 111320)⟩, ⟨500 / 111320, 500 / 111320⟩,
       ⟨-(500 / 111320), -(500 / 111320)⟩,
       ⟨-(500 / 111320), 500 / 111320⟩] ∧
    ((1000 / 2 : ℚ) ^ 2 <
      planarDistSq 1 ⟨500 / 111320, -(500 / 111320)⟩ ⟨0, 0⟩ ∧
    (1000 / 2 : ℚ) ^ 2 <
      planarDistSq 1 ⟨500 / 111320, 500 / 111320⟩ ⟨0, 0⟩ ∧
    (1000 / 2 : ℚ) ^ 2 <
      planarDistSq 1 ⟨-(500 / 111320), -(500 / 111320)⟩ ⟨0, 0⟩ ∧
    (1000 / 2 : ℚ) ^ 2 <
      planarDistSq 1 ⟨-(500 / 111320), 500 / 111320⟩ ⟨0, 0⟩) ∧
    searchNearbyRecursive
        (fun c r => List.replicate 20 ⟨"filler", "F", [], ⟨1, 1⟩⟩ ++
          (if planarDistSq 1 c ⟨0, 0⟩ ≤ r ^ 2 then
            [⟨"center-point", "P", [], ⟨0, 0⟩⟩] else []))
        (fun _ => 1) 500 2 ⟨0, 0⟩ 1000 =
      some (List.replicate 80 ⟨"filler", "F", [], ⟨1, 1⟩⟩, 5) ∧
    (⟨"center-point", "P", [], ⟨0, 0⟩⟩ : PlaceBasic) ∉
      List.replicate 80 (⟨"filler", "F", [], ⟨1, 1⟩⟩ : PlaceBasic) ∧
    (⟨"center-point", "P", [], ⟨0, 0⟩⟩ : PlaceBasic) ∈
      List.replicate 20 (⟨"filler", "F", [], ⟨1, 1⟩⟩ : PlaceBasic) ++
        (if planarDistSq 1 ⟨0, 0⟩ ⟨0, 0⟩ ≤ (1000 : ℚ) ^ 2 then
          [(⟨"center-point", "P", [], ⟨0, 0⟩⟩ : PlaceBasic)] else []) := by
  refine ⟨by norm_num [planarDistSq], ?_,
    ⟨?_, ?_, ?_, ?_⟩, ?_, by decide, ?_⟩
  · norm_num [planarDistSq, quadrantCenters]
  · norm_num [planarDistSq, quadrantCenters]
  · norm_num [planarDistSq, quadrantCenters]
  · norm_num [planarDistSq, quadrantCenters]
  · norm_num [planarDistSq, quadrantCenters]
  · -- the synthetic run: one subdivision, four floor-level children, and
    -- the center-point stub (reported by the parent query, whose results
    -- are discarded) appears in no child circle and is lost.
    have hchild : ∀ q : Location,
        searchNearbyRecursive
          (fun c r => List.replicate 20 ⟨"filler", "F", [], ⟨1, 1⟩⟩ ++
            (if planarDistSq 1 c ⟨0, 0⟩ ≤ r ^ 2 then
              [⟨"center-point", "P", [], ⟨0, 0⟩⟩] else []))
          (fun _ => 1) 500 1 q 500 =
          some (List.replicate 20 ⟨"filler", "F", [], ⟨1, 1⟩⟩ ++
            (if planarDistSq 1 q ⟨0, 0⟩ ≤ (500 : ℚ) ^ 2 then
              [⟨"center-point", "P", [], ⟨0, 0⟩⟩] else []), 1) :=
      fun q => searchRec_floor _ _ 500 500 0 q le_rfl
    have h := searchRec_subdivide
      (fun c r => List.replicate 20 ⟨"filler", "F", [], ⟨1, 1⟩⟩ ++
        (if planarDistSq 1 c ⟨0, 0⟩ ≤ r ^ 2 then
          [⟨"center-point", "P", [], ⟨0, 0⟩⟩] else []))
      (fun _ => 1) 500 1000 1 ⟨0, 0⟩
      (List.replicate 20 ⟨"filler", "F", [], ⟨1, 1⟩⟩)
      (List.replicate 20 ⟨"filler", "F", [], ⟨1, 1⟩⟩)
      (List.replicate 20 ⟨"filler", "F", [], ⟨1, 1⟩⟩)
      (List.replicate 20 ⟨"filler", "F", [], ⟨1, 1⟩⟩)
      1 1 1 1 (by norm_num [planarDistSq]) (by norm_num) ?_
    · rw [h]
      rw [show (1 : ℕ) + 1 + 1 + 1 + 1 = 5 by norm_num]
      rw [← List.replicate_add, ← List.replicate_add, ← List.replicate_add]
    · have h1000 : (1000 : ℚ) / 2 = 500 := by norm_num
      rw [h1000]
      simp only [quadrantCenters, List.map_cons, List.map_nil, hchild]
      norm_num [planarDistSq]
  · norm_num [planarDistSq, List.mem_append]

/-- For nonnegative `a`, `b` inside the circle of radius `r`, the
projection inequality `a² + b² ≤ r(a + b)` (the algebraic core of the
√2-coverage bound). -/
theorem key_ineq (a b r : ℚ) (ha : 0 ≤ a) (hb : 0 ≤ b) (hr : 0 ≤ r)
    (h : a ^ 2 + b ^ 2 ≤ r ^ 2) : a ^ 2 + b ^ 2 ≤ r * (a + b) := by
  nlinarith [sq_nonneg (a + b), sq_nonneg (a - b), mul_nonneg ha hb,
    mul_nonneg hr (add_nonneg ha hb),
    sq_nonneg (r * (a + b) - (a ^ 2 + b ^ 2)), sq_nonneg (r - a - b),
    sq_nonneg (r - a), sq_nonneg (r - b)]

/-- C1 amended: every point of the parent circle lies within planar
distance `√2·newRadius` of one of the four child centers (squared:
`2·newRadius²`); with radius `newRadius` itself the children can miss
interior points — see the counterexample at the parent center. -/
theorem coverage_amended (cosLat : ℚ) (center p : Location) (radius : ℚ)
    (hc : cosLat ≠ 0) (hr : 0 < radius)
    (hp : planarDistSq cosLat center p ≤ radius ^ 2) :
    ∃ q ∈ quadrantCenters (fun _ => cosLat) center (radius / 2),
      planarDistSq cosLat q p ≤ 2 * (radius / 2) ^ 2 := by
  simp only [planarDistSq] at hp
  have hK : (111320 : ℚ) * cosLat ≠ 0 := mul_ne_zero (by norm_num) hc
  set X : ℚ := (p.lng - center.lng) * (111320 * cosLat) with hX
  set Y : ℚ := (p.lat - center.lat) * 111320 with hY
  have hr' : (0 : ℚ) ≤ radius := le_of_lt hr
  rcases le_or_lt 0 X with hx | hx <;> rcases le_or_lt 0 Y with hy | hy
  · -- X ≥ 0, Y ≥ 0: NE child (lat + offset, lng + offset)
    refine ⟨⟨center.lat + radius / 2 / 111320,
      center.lng + radius / 2 / (111320 * cosLat)⟩,
      by simp [quadrantCenters], ?_⟩
    simp only [planarDistSq]
    have e1 : (p.lng - (center.lng + radius / 2 / (111320 * cosLat))) *
        (111320 * cosLat) = X - radius / 2 := by
      rw [hX]; field_simp; ring
    have e2 : (p.lat - (center.lat + radius / 2 / 111320)) * 111320 =
        Y - radius / 2 := by
      rw [hY]; field_simp; ring
    rw [e1, e2]
    nlinarith [key_ineq X Y radius hx hy hr' hp]
  · -- X ≥ 0, Y < 0: SE child (lat - offset, lng + offset)
    refine ⟨⟨center.lat - radius / 2 / 111320,
      center.lng + radius / 2 / (111320 * cosLat)⟩,
      by simp [quadrantCenters], ?_⟩
    simp only [planarDistSq]
    have e1 : (p.lng - (center.lng + radius / 2 / (111320 * cosLat))) *
        (111320 * cosLat) = X - radius / 2 := by
      rw [hX]; field_simp; ring
    have e2 : (p.lat - (center.lat - radius / 2 / 111320)) * 111320 =
        Y + radius / 2 := by
      rw [hY]; field_simp; ring
    rw [e1, e2]
    nlinarith [key_ineq X (-Y) radius hx (by linarith) hr'
      (by nlinarith [hp])]
  · -- X < 0, Y ≥ 0: NW child (lat + offset, lng - offset)
    refine ⟨⟨center.lat + radius / 2 / 111320,
      center.lng - radius / 2 / (111320 * cosLat)⟩,
      by simp [quadrantCenters], ?_⟩
    simp only [planarDistSq]
    have e1 : (p.lng - (center.lng - radius / 2 / (111320 * cosLat))) *
        (111320 * cosLat) = X + radius / 2 := by
      rw [hX]; field_simp; ring
    have e2 : (p.lat - (center.lat + radius / 2 / 111320)) * 111320 =
        Y - radius / 2 := by
      rw [hY]; field_simp; ring
    rw [e1, e2]
    nlinarith [key_ineq (-X) Y radius (by linarith) hy hr'
      (by nlinarith [hp])]
  · -- X < 0, Y < 0: SW child (lat - offset, lng - offset)
    refine ⟨⟨center.lat - radius / 2 / 111320,
      center.lng - radius / 2 / (111320 * cosLat)⟩,
      by simp [quadrantCenters], ?_⟩
    simp only [planarDistSq]
    have e1 : (p.lng - (center.lng - radius / 2 / (111320 * cosLat))) *
        (111320 * cosLat) = X + radius / 2 := by
      rw [hX]; field_simp; ring
    have e2 : (p.lat - (center.lat - radius / 2 / 111320)) * 111320 =
        Y + radius / 2 := by
      rw [hY]; field_simp; ring
    rw [e1, e2]
    nlinarith [key_ineq (-X) (-Y) radius (by linarith) (by linarith) hr'
      (by nlinarith [hp])]

/-- Witness for the amended C1 at a concrete boundary-ish point. -/
theorem coverage_amended_witness :
    ∃ q ∈ quadrantCenters (fun _ => (1 : ℚ)) ⟨0, 0⟩ (1000 / 2),
      planarDistSq 1 q ⟨0, 500 / 111320⟩ ≤ 2 * ((1000 : ℚ) / 2) ^ 2 :=
  coverage_amended 1 ⟨0, 0⟩ ⟨0, 500 / 111320⟩ 1000 (by norm_num)
    (by norm_num) (by norm_num [planarDistSq])

end NearbyPlaces